import Mathlib

/-!
# Order timeline/progress state machine — verification development

Shallow embedding of the order lifecycle core of the `sourc-backend`
repository (`src/controllers/orderController.js`, controller functions plus
the mongoose `Order` schema methods appended in the same file).  The order
aggregate carries a 7-step timeline, a numeric progress cursor and a derived
coarse status; the definitions below translate, clause by clause, the three
mutation paths (create, bulk update, advance/set phase) and the pure helpers
they rely on.
-/

set_option maxHeartbeats 1000000

namespace Sourc

/-- The coarse order status enum of the `Order` schema
(`enum: ['Development', 'In Progress', 'Production', 'Shipped', 'Delivered', 'Cancelled']`). -/
inductive OrderStatus where
  | Development
  | InProgress
  | Production
  | Shipped
  | Delivered
  | Cancelled
  deriving DecidableEq, Repr

/-- The per-step status enum of `timelineStepSchema`
(`enum: ['Locked', 'In Progress', 'Completed']`). -/
inductive StepStatus where
  | Locked
  | InProgress
  | Completed
  deriving DecidableEq, Repr

/-- One timeline step, mirroring `timelineStepSchema`: template fields
(`id`, `title`, `description`, `estimatedDuration`), run fields
(`startDate`, `finishDate`) and the redundant status encoding
(`status`, `isCompleted`, `isInProgress`, `isLocked`). -/
structure TimelineStep where
  id : Nat
  title : String
  description : String
  estimatedDuration : String
  startDate : String
  finishDate : String
  status : StepStatus
  isCompleted : Bool
  isInProgress : Bool
  isLocked : Bool
  deriving DecidableEq, Repr

/-- The four template fields of one entry of the `defaultTimeline` constant
that `createOrder` and `updateOrder` both inline. -/
structure TemplateStep where
  id : Nat
  title : String
  description : String
  estimatedDuration : String
  deriving DecidableEq, Repr

/-- The 7-step `defaultTimeline` template literal shared (by duplication) by
`createOrder` and `updateOrder`. -/
def defaultTimeline : List TemplateStep :=
  [ ⟨1, "Offer Accepted", "Customer has approved the offer; order has been initiated.", "1 day"⟩,
    ⟨2, "Mold / Product in Development", "Product or mold is being created.", "14 days"⟩,
    ⟨3, "Sample Sent to Client", "Customer receives a sample. Approval required.", "3 days"⟩,
    ⟨4, "Sample Approved", "Customer has approved the sample. Mass production begins.", "2 days"⟩,
    ⟨5, "Production Phase", "Final product is being manufactured.", "21 days"⟩,
    ⟨6, "Transport Phase", "Order has shipped. In transit to the destination country.", "7 days"⟩,
    ⟨7, "Delivered to Final Location", "Order has been delivered to the specified location.", "1 day"⟩ ]

/-- The `progress` sub-document: `{current, total}`.  Modelled over `Int`
(JavaScript numbers, compared and clamped with `<`/`Math.min`/`Math.max`). -/
structure Progress where
  current : Int
  total : Int
  deriving DecidableEq, Repr

/-- The slice of the `Order` document the lifecycle core reads and writes:
`status`, `currentPhase`, `progress` and the embedded `timeline`. -/
structure Order where
  status : OrderStatus
  currentPhase : String
  progress : Progress
  timeline : List TimelineStep
  deriving DecidableEq, Repr

/-- `orderSchema.methods.updateStatus`'s `phaseStatusMap` lookup:
`{1:'Development', 2:'Development', 3:'In Progress', 4:'In Progress',
5:'Production', 6:'Shipped', 7:'Delivered'}`, with the `|| 'Development'`
fallback for any other cursor. -/
def phaseStatusMap (current : Int) : OrderStatus :=
  if current = 1 then .Development
  else if current = 2 then .Development
  else if current = 3 then .InProgress
  else if current = 4 then .InProgress
  else if current = 5 then .Production
  else if current = 6 then .Shipped
  else if current = 7 then .Delivered
  else .Development

/-- Build one fresh step of `createOrder`'s default timeline:
`stepPosition = index + 1` compared against `progress.current`
(`< → Completed`, `== → In Progress`, else `Locked`); the spread template
step carries no dates, so `startDate`/`finishDate` take the schema default
`''`. -/
def buildStep (currentProgress : Int) (index : Int) (t : TemplateStep) : TimelineStep :=
  let stepPosition := index + 1
  if stepPosition < currentProgress then
    ⟨t.id, t.title, t.description, t.estimatedDuration, "", "", .Completed, true, false, false⟩
  else if stepPosition = currentProgress then
    ⟨t.id, t.title, t.description, t.estimatedDuration, "", "", .InProgress, false, true, false⟩
  else
    ⟨t.id, t.title, t.description, t.estimatedDuration, "", "", .Locked, false, false, true⟩

/-- The indexed map underlying `defaultTimeline.map((step, index) => ...)` in
`createOrder`. -/
def buildTimelineFrom (currentProgress : Int) (index : Int) :
    List TemplateStep → List TimelineStep
  | [] => []
  | t :: rest => buildStep currentProgress index t :: buildTimelineFrom currentProgress (index + 1) rest

/-- `createOrder`'s timeline construction from a 1-based cursor
(`req.body.progress.current`). -/
def buildTimelineFromProgress (currentProgress : Int) : List TimelineStep :=
  buildTimelineFrom currentProgress 0 defaultTimeline

/-- The spec's 0-based `buildDefaultTimeline(currentIndex)` view of the same
construction: index `i` active corresponds to cursor `i + 1`. -/
def buildDefaultTimeline (currentIndex : Int) : List TimelineStep :=
  buildTimelineFromProgress (currentIndex + 1)

/-- JavaScript `String.prototype.toLowerCase()` on the ASCII-only status
strings: lower-case every character. -/
def toLowerCase (s : String) : String := ⟨s.data.map Char.toLower⟩

/-- `createOrder`'s status-to-progress `switch` on
`req.body.status?.toLowerCase()`: `development→2, in progress→4,
production→5, shipped→6, delivered→7`, default `1`.  `none` models an absent
`status` (the `switch` on `undefined` hits `default`). -/
def resolveInitialProgress (status : Option String) : Int :=
  match status with
  | none => 1
  | some s =>
    let low := toLowerCase s
    if low = "development" then 2
    else if low = "in progress" then 4
    else if low = "production" then 5
    else if low = "shipped" then 6
    else if low = "delivered" then 7
    else 1

/-- The cursor `createOrder` ends up with on the no-timeline branch: the
explicit `progress.current` when supplied (absent `progress` defaults to
`{current: 1, total: 7}`), overridden via the status `switch` whenever the
cursor is falsy (`0`) or `1`. -/
def createResolveProgress (explicitCurrent : Option Int) (status : Option String) : Int :=
  let cur := explicitCurrent.getD 1
  if cur = 0 ∨ cur = 1 then resolveInitialProgress status else cur

/-- Whether the three boolean flags of a step agree with its `status` — the
redundant-encoding consistency of the data model. -/
def flagsAgree (s : TimelineStep) : Bool :=
  match s.status with
  | .Completed => s.isCompleted && !s.isInProgress && !s.isLocked
  | .InProgress => !s.isCompleted && s.isInProgress && !s.isLocked
  | .Locked => !s.isCompleted && !s.isInProgress && s.isLocked

/-- JavaScript indexed read `timeline[i]` for a possibly negative or
out-of-range index: `undefined` becomes `none`. -/
def getAtInt (l : List TimelineStep) (i : Int) : Option TimelineStep :=
  if 0 ≤ i then l.get? i.toNat else none

/-- JavaScript guarded in-place mutation
`if (timeline[i]) { timeline[i].f = ... }`: the element at (Int) index `i`
is replaced by `f` of itself; nothing happens when the index is out of
range. -/
def modifyAtInt (l : List TimelineStep) (i : Int) (f : TimelineStep → TimelineStep) :
    List TimelineStep :=
  match l with
  | [] => []
  | s :: rest => (if i = 0 then f s else s) :: modifyAtInt rest (i - 1) f

/-- `orderSchema.methods.advancePhase`: when `progress.current <
progress.total`, complete the step at `current - 1` (stamping `finishDate`
with today's formatted date, abstracted as the `today` argument), increment
the cursor, take the new step's title as `currentPhase` (falling back to the
old `currentPhase` when the step is missing or its title is falsy), start
the new step at the incremented `current - 1` (stamping `startDate`), and
recompute `status` via `updateStatus`'s `phaseStatusMap`.  Otherwise the
order is untouched. -/
def Order.advancePhase (today : String) (o : Order) : Order :=
  if o.progress.current < o.progress.total then
    let t1 := modifyAtInt o.timeline (o.progress.current - 1) fun s =>
      { s with status := .Completed, isCompleted := true, isInProgress := false,
               finishDate := today }
    let newCurrent := o.progress.current + 1
    let phase :=
      match getAtInt t1 (newCurrent - 1) with
      | some s => if s.title ≠ "" then s.title else o.currentPhase
      | none => o.currentPhase
    let t2 := modifyAtInt t1 (newCurrent - 1) fun s =>
      { s with status := .InProgress, isInProgress := true, isLocked := false,
               startDate := today }
    { o with timeline := t2,
             progress := { o.progress with current := newCurrent },
             currentPhase := phase,
             status := phaseStatusMap newCurrent }
  else o

/-- A failure surfaced through `ErrorResponse(message, statusCode)`. -/
structure ApiError where
  message : String
  statusCode : Nat
  deriving DecidableEq, Repr

/-- The `advanceOrderPhase` controller on an order that was found: reject
with a 400 `ErrorResponse` when `progress.current >= progress.total`,
otherwise apply the `advancePhase` schema method. -/
def advanceOrderPhase (today : String) (o : Order) : Except ApiError Order :=
  if o.progress.current ≥ o.progress.total then
    .error ⟨"Order is already at the final phase", 400⟩
  else
    .ok (Order.advancePhase today o)

/-- One pass of the shared timeline sweep (`updateOrderPhase` and
`updateOrder` both run it): at 0-based position `pos` with 0-based active
index `currentIndex`, positions below become `Completed`, the active
position `In Progress`, the rest `Locked`; all other fields are kept. -/
def sweepStep (currentIndex : Int) (pos : Int) (s : TimelineStep) : TimelineStep :=
  if pos < currentIndex then
    { s with status := .Completed, isCompleted := true, isInProgress := false, isLocked := false }
  else if pos = currentIndex then
    { s with status := .InProgress, isCompleted := false, isInProgress := true, isLocked := false }
  else
    { s with status := .Locked, isCompleted := false, isInProgress := false, isLocked := true }

/-- The `forEach((item, index) => ...)` sweep over a whole timeline,
starting from position `pos`. -/
def sweepFrom (currentIndex : Int) (pos : Int) : List TimelineStep → List TimelineStep
  | [] => []
  | s :: rest => sweepStep currentIndex pos s :: sweepFrom currentIndex (pos + 1) rest

/-- `Array.prototype.findIndex` on a timeline, carrying the index counted so
far; a miss (`-1` in JavaScript, immediately turned into a 400) is `none`. -/
def findIndexFrom (p : TimelineStep → Bool) (i : Nat) : List TimelineStep → Option Nat
  | [] => none
  | s :: rest => if p s then some i else findIndexFrom p (i + 1) rest

/-- The `updateOrderPhase` controller on an order that was found: validate
that `phase` names some timeline step title (else 400 `ErrorResponse`); set
the cursor to the clamped explicit `progress` when one is supplied
(`Math.min(Math.max(progress, 0), progress.total)`) or to the 1-based match
index; set `currentPhase` to the requested phase; sweep the whole timeline
around the new cursor; recompute `status` via `updateStatus`. -/
def updateOrderPhase (phase : String) (progressArg : Option Int) (o : Order) :
    Except ApiError Order :=
  match findIndexFrom (fun item => item.title = phase) 0 o.timeline with
  | none => .error ⟨"Invalid phase specified", 400⟩
  | some phaseIndex =>
    let newCurrent : Int :=
      match progressArg with
      | some p => min (max p 0) o.progress.total
      | none => (phaseIndex : Int) + 1
    let swept := sweepFrom (newCurrent - 1) 0 o.timeline
    .ok { o with progress := { o.progress with current := newCurrent },
                 currentPhase := phase,
                 timeline := swept,
                 status := phaseStatusMap newCurrent }

/-- One entry of a caller-supplied `req.body.timeline` in `updateOrder`.
JavaScript falsiness of the string fields (absent/`null`/`""` behave
identically under `||`) is collapsed into the empty string; `isCompleted`
and `isInProgress` go through `|| false`, so any falsy value is `false`;
`isLocked` goes through `!== false`, so the explicit `false` must stay
distinguishable from absence and keeps an `Option`. -/
structure InputStep where
  id : Nat := 0
  title : String := ""
  description : String := ""
  estimatedDuration : String := ""
  startDate : String := ""
  finishDate : String := ""
  status : Option StepStatus := none
  isCompleted : Bool := false
  isInProgress : Bool := false
  isLocked : Option Bool := none
  deriving DecidableEq, Repr

/-- One entry of `updateOrder`'s `normalizedIncoming` map: each field is the
caller's value when truthy, else the template value at the same index
(`defaultTimeline[index]?.title`, falling back to `` `Step ${index+1}` ``
beyond the template, and `''` for descriptions/durations); `status` defaults
from the flags with completed-over-in-progress precedence; `isLocked` is
`step.isLocked !== false`. -/
def normalizeStep (index : Nat) (s : InputStep) : TimelineStep :=
  { id := if s.id ≠ 0 then s.id else index + 1,
    title :=
      if s.title ≠ "" then s.title
      else match defaultTimeline.get? index with
        | some t => t.title
        | none => "Step " ++ toString (index + 1),
    description :=
      if s.description ≠ "" then s.description
      else match defaultTimeline.get? index with
        | some t => t.description
        | none => "",
    estimatedDuration :=
      if s.estimatedDuration ≠ "" then s.estimatedDuration
      else match defaultTimeline.get? index with
        | some t => t.estimatedDuration
        | none => "",
    startDate := s.startDate,
    finishDate := s.finishDate,
    status :=
      match s.status with
      | some st => st
      | none => if s.isCompleted then .Completed
                else if s.isInProgress then .InProgress
                else .Locked,
    isCompleted := s.isCompleted,
    isInProgress := s.isInProgress,
    isLocked := s.isLocked ≠ some false }

/-- The indexed map `req.body.timeline.map((step, index) => ...)` producing
`normalizedIncoming`. -/
def normalizeFrom (index : Nat) : List InputStep → List TimelineStep
  | [] => []
  | s :: rest => normalizeStep index s :: normalizeFrom (index + 1) rest

/-- One entry of `updateOrder`'s `enforcedTimeline` map over the 7 template
steps: when `normalizedIncoming[idx]` exists, merge it onto the template
(caller's truthy `title`/`description`/`estimatedDuration` win) keeping its
status/flags; when it is missing, force a `Locked` template step. -/
def enforceStep (tpl : TemplateStep) (provided : Option TimelineStep) : TimelineStep :=
  match provided with
  | some p =>
    { id := tpl.id,
      title := if p.title ≠ "" then p.title else tpl.title,
      description := if p.description ≠ "" then p.description else tpl.description,
      estimatedDuration := if p.estimatedDuration ≠ "" then p.estimatedDuration
                           else tpl.estimatedDuration,
      startDate := p.startDate,
      finishDate := p.finishDate,
      status := p.status,
      isCompleted := p.isCompleted,
      isInProgress := p.isInProgress,
      isLocked := p.isLocked }
  | none =>
    { id := tpl.id, title := tpl.title, description := tpl.description,
      estimatedDuration := tpl.estimatedDuration, startDate := "", finishDate := "",
      status := .Locked, isCompleted := false, isInProgress := false, isLocked := true }

/-- The indexed map `defaultTimeline.map((tpl, idx) => ...)` building the
enforced 7-step timeline from the normalized caller steps. -/
def enforceFrom (normalized : List TimelineStep) (idx : Nat) :
    List TemplateStep → List TimelineStep
  | [] => []
  | tpl :: rest => enforceStep tpl (normalized.get? idx) :: enforceFrom normalized (idx + 1) rest

/-- `updateOrder`'s full timeline normalization: normalize the caller's
steps, then align them to the 7 template steps. -/
def enforcedTimeline (input : List InputStep) : List TimelineStep :=
  enforceFrom (normalizeFrom 0 input) 0 defaultTimeline

/-- `updateOrder`'s percentage status policy: `percent = current / total *
100` (exact rational arithmetic), first matching threshold wins:
`≥100 → Delivered, ≥85 → Shipped, ≥70 → Production, ≥30 → In Progress`,
else `Development`. -/
def statusFromPercentage (current total : Int) : OrderStatus :=
  let percent : ℚ := (current : ℚ) / (total : ℚ) * 100
  if percent ≥ 100 then .Delivered
  else if percent ≥ 85 then .Shipped
  else if percent ≥ 70 then .Production
  else if percent ≥ 30 then .InProgress
  else .Development

/-- The fields of the `req.body` patch that `updateOrder` recomputes on the
timeline branch. -/
structure UpdatePatch where
  timeline : List TimelineStep
  current : Int
  total : Int
  currentPhase : String
  status : OrderStatus
  deriving DecidableEq, Repr

/-- The timeline branch of `updateOrder` on a found order: build
`enforcedTimeline`, recompute `progress.current` as
`completedSteps + (inProgressSteps > 0 ? 1 : 0)` clamped to `[1, 7]` with
`progress.total = 7`, sweep the enforced timeline around the new cursor,
set `currentPhase` to the (truthy) title at `current - 1` with the
`'Offer Accepted'` fallback, and — only when the payload carries no explicit
`status` — derive `status` from the progress percentage. -/
def updateTimelinePath (input : List InputStep) (explicitStatus : Option OrderStatus) :
    UpdatePatch :=
  let enforced := enforcedTimeline input
  let completedSteps := (enforced.filter (fun step => step.isCompleted)).length
  let inProgressSteps := (enforced.filter (fun step => step.isInProgress)).length
  let computedCurrent : Int := completedSteps + (if inProgressSteps > 0 then 1 else 0)
  let current := min (max computedCurrent 1) 7
  let currentIndex := current - 1
  let swept := sweepFrom currentIndex 0 enforced
  let phase :=
    match getAtInt swept currentIndex with
    | some s => if s.title ≠ "" then s.title else "Offer Accepted"
    | none => "Offer Accepted"
  { timeline := swept,
    current := current,
    total := 7,
    currentPhase := phase,
    status :=
      match explicitStatus with
      | some st => st
      | none => statusFromPercentage current 7 }

/-! ## Helper lemmas about the indexed list transformers -/

theorem modifyAtInt_get? (l : List TimelineStep) (i : Int) (f : TimelineStep → TimelineStep)
    (j : Nat) :
    (modifyAtInt l i f).get? j = if (j : Int) = i then (l.get? j).map f else l.get? j := by
  induction l generalizing i j with
  | nil => simp [modifyAtInt]
  | cons s rest ih =>
    cases j with
    | zero =>
      simp only [modifyAtInt, List.get?_cons_zero, Nat.cast_zero]
      by_cases h : i = 0
      · subst h; simp
      · rw [if_neg h, if_neg (by omega)]
    | succ j =>
      simp only [modifyAtInt, List.get?_cons_succ, ih]
      by_cases h : (j : Int) = i - 1
      · rw [if_pos h, if_pos (by omega)]
      · rw [if_neg h, if_neg (by push_cast; omega)]

theorem modifyAtInt_length (l : List TimelineStep) (i : Int) (f : TimelineStep → TimelineStep) :
    (modifyAtInt l i f).length = l.length := by
  induction l generalizing i with
  | nil => rfl
  | cons s rest ih => simp [modifyAtInt, ih]

theorem sweepFrom_get? (c p : Int) (l : List TimelineStep) (j : Nat) :
    (sweepFrom c p l).get? j = (l.get? j).map (sweepStep c (p + j)) := by
  induction l generalizing p j with
  | nil => simp [sweepFrom]
  | cons s rest ih =>
    cases j with
    | zero => simp [sweepFrom]
    | succ j =>
      rw [show p + ((j : Nat) + 1 : Nat) = (p + 1) + (j : Int) by push_cast; ring]
      simp only [sweepFrom, List.get?_cons_succ, ih]

theorem sweepFrom_length (c p : Int) (l : List TimelineStep) :
    (sweepFrom c p l).length = l.length := by
  induction l generalizing p with
  | nil => rfl
  | cons s rest ih => simp [sweepFrom, ih]

theorem normalizeFrom_get? (n : Nat) (l : List InputStep) (j : Nat) :
    (normalizeFrom n l).get? j = (l.get? j).map (normalizeStep (n + j)) := by
  induction l generalizing n j with
  | nil => simp [normalizeFrom]
  | cons s rest ih =>
    cases j with
    | zero => simp [normalizeFrom]
    | succ j =>
      rw [show n + (j + 1) = (n + 1) + j by omega]
      simp only [normalizeFrom, List.get?_cons_succ, ih]

theorem normalizeFrom_length (n : Nat) (l : List InputStep) :
    (normalizeFrom n l).length = l.length := by
  induction l generalizing n with
  | nil => rfl
  | cons s rest ih => simp [normalizeFrom, ih]

theorem enforceFrom_get? (normalized : List TimelineStep) (idx : Nat)
    (tpls : List TemplateStep) (j : Nat) :
    (enforceFrom normalized idx tpls).get? j =
      (tpls.get? j).map (fun t => enforceStep t (normalized.get? (idx + j))) := by
  induction tpls generalizing idx j with
  | nil => simp [enforceFrom]
  | cons tpl rest ih =>
    cases j with
    | zero => simp [enforceFrom]
    | succ j =>
      rw [show idx + (j + 1) = (idx + 1) + j by omega]
      simp only [enforceFrom, List.get?_cons_succ, ih]

theorem enforceFrom_length (normalized : List TimelineStep) (idx : Nat)
    (tpls : List TemplateStep) :
    (enforceFrom normalized idx tpls).length = tpls.length := by
  induction tpls generalizing idx with
  | nil => rfl
  | cons tpl rest ih => simp [enforceFrom, ih]

theorem enforcedTimeline_length (input : List InputStep) :
    (enforcedTimeline input).length = 7 := by
  simp [enforcedTimeline, enforceFrom_length, defaultTimeline]

theorem findIndexFrom_some_of_exists (p : TimelineStep → Bool) (l : List TimelineStep)
    (n : Nat) (h : ∃ s ∈ l, p s = true) : ∃ i, findIndexFrom p n l = some i := by
  induction l generalizing n with
  | nil => simp at h
  | cons s rest ih =>
    by_cases hs : p s = true
    · exact ⟨n, by simp [findIndexFrom, hs]⟩
    · obtain ⟨t, ht, hpt⟩ := h
      rcases List.mem_cons.mp ht with rfl | htr
      · exact absurd hpt hs
      · obtain ⟨i, hi⟩ := ih (n + 1) ⟨t, htr, hpt⟩
        exact ⟨i, by simp [findIndexFrom, hs, hi]⟩

theorem findIndexFrom_eq_of (p : TimelineStep → Bool) (l : List TimelineStep)
    (k : Nat) (n : Nat)
    (hbefore : ∀ j < k, ∀ s, l.get? j = some s → p s = false)
    (hhit : ∃ s, l.get? k = some s ∧ p s = true) :
    findIndexFrom p n l = some (n + k) := by
  induction l generalizing n k with
  | nil => obtain ⟨s, hs, -⟩ := hhit; simp at hs
  | cons s rest ih =>
    cases k with
    | zero =>
      obtain ⟨t, ht, hpt⟩ := hhit
      simp only [List.get?_cons_zero, Option.some_inj] at ht
      subst ht
      simp [findIndexFrom, hpt]
    | succ k =>
      have hs0 : p s = false := hbefore 0 (Nat.succ_pos k) s rfl
      have := ih k (n + 1)
        (fun j hj t htj => hbefore (j + 1) (Nat.succ_lt_succ hj) t htj) hhit
      rw [findIndexFrom, if_neg (by simp [hs0]), this]
      congr 1
      omega

theorem exists_seven (l : List TimelineStep) (h : l.length = 7) :
    ∃ a b c d e f g, l = [a, b, c, d, e, f, g] := by
  match l, h with
  | [a, b, c, d, e, f, g], _ => exact ⟨a, b, c, d, e, f, g, rfl⟩

theorem buildTimelineFrom_get? (c idx : Int) (tpls : List TemplateStep) (j : Nat) :
    (buildTimelineFrom c idx tpls).get? j = (tpls.get? j).map (buildStep c (idx + j)) := by
  induction tpls generalizing idx j with
  | nil => simp [buildTimelineFrom]
  | cons t rest ih =>
    cases j with
    | zero => simp [buildTimelineFrom]
    | succ j =>
      rw [show idx + ((j : Nat) + 1 : Nat) = (idx + 1) + (j : Int) by push_cast; ring]
      simp only [buildTimelineFrom, List.get?_cons_succ, ih]

theorem buildTimelineFrom_length (c idx : Int) (tpls : List TemplateStep) :
    (buildTimelineFrom c idx tpls).length = tpls.length := by
  induction tpls generalizing idx with
  | nil => rfl
  | cons t rest ih => simp [buildTimelineFrom, ih]

/-! ## Claim theorems -/

/-- C2: for every order with `progress.current >= progress.total`, the
advance-phase operation fails with the terminal-state `ErrorResponse`
(HTTP status hint 400), and the `advancePhase` schema method leaves the
order — progress, timeline, currentPhase and status — unmodified. -/
theorem advance_at_terminal_fails_and_preserves (o : Order) (today : String)
    (h : o.progress.total ≤ o.progress.current) :
    advanceOrderPhase today o = .error ⟨"Order is already at the final phase", 400⟩ ∧
    Order.advancePhase today o = o := by
  constructor
  · rw [advanceOrderPhase, if_pos (by omega)]
  · rw [Order.advancePhase, if_neg (by omega)]

/-- A concrete order already at the final phase (cursor 7 of 7). -/
def deliveredOrder : Order :=
  { status := .Delivered, currentPhase := "Delivered to Final Location",
    progress := ⟨7, 7⟩, timeline := buildTimelineFromProgress 7 }

theorem advance_at_terminal_fails_and_preserves_witness :
    advanceOrderPhase "1/1/2026" deliveredOrder =
      .error ⟨"Order is already at the final phase", 400⟩ ∧
    Order.advancePhase "1/1/2026" deliveredOrder = deliveredOrder :=
  advance_at_terminal_fails_and_preserves deliveredOrder "1/1/2026" (by decide)

/-- C3: for every `current ∈ [1,7]`, the default timeline built by the
create path for cursor `current` has exactly 7 steps; the step at each index
`j` is `Completed` for `j < current - 1`, `In Progress` for `j = current -
1` and `Locked` beyond, and its three boolean flags agree with its status —
so there is exactly one `In Progress` step, at index `current - 1`. -/
theorem default_timeline_single_active (current : Nat)
    (h1 : 1 ≤ current) (h7 : current ≤ 7) :
    (buildTimelineFromProgress (current : Int)).length = 7 ∧
    ∀ j : Nat, j < 7 →
      ∃ s, (buildTimelineFromProgress (current : Int)).get? j = some s ∧
        flagsAgree s = true ∧
        s.status = (if j < current - 1 then .Completed
                    else if j = current - 1 then .InProgress else .Locked) := by
  constructor
  · rw [buildTimelineFromProgress, buildTimelineFrom_length]; rfl
  · intro j hj
    interval_cases current <;> interval_cases j <;>
      exact ⟨_, rfl, by decide, by decide⟩

theorem default_timeline_single_active_witness :
    (buildTimelineFromProgress ((6 : Nat) : Int)).length = 7 ∧
    ∀ j : Nat, j < 7 →
      ∃ s, (buildTimelineFromProgress ((6 : Nat) : Int)).get? j = some s ∧
        flagsAgree s = true ∧
        s.status = (if j < 6 - 1 then .Completed
                    else if j = 6 - 1 then .InProgress else .Locked) :=
  default_timeline_single_active 6 (by decide) (by decide)

/-- C6 counterexample: the create path's status-to-progress resolution is
not whitespace-trimmed — with status `" shipped "` (surrounding whitespace)
and no explicit progress, the resolved cursor is the default 1, not the 6
the claim asserts. -/
theorem create_status_not_trimmed_cex :
    createResolveProgress none (some " shipped ") = 1 ∧
    ¬ createResolveProgress none (some " shipped ") = 6 := by
  constructor <;> decide

/-- C6 (amended): for every create payload with no timeline and no explicit
progress, the initial cursor is resolved from the payload's status string
case-insensitively but WITHOUT whitespace trimming — lowercasing maps
`development→2, in progress→4, production→5, shipped→6, delivered→7`,
anything else (including absent) to 1; `"Shipped"` yields cursor 6, and the
default timeline then built marks steps 1–5 `Completed`, step 6
`In Progress`, step 7 `Locked`, while `" shipped "` falls to the default
cursor 1. -/
theorem create_status_resolution (s : String) :
    createResolveProgress none (some s) =
      (if toLowerCase s = "development" then 2
       else if toLowerCase s = "in progress" then 4
       else if toLowerCase s = "production" then 5
       else if toLowerCase s = "shipped" then 6
       else if toLowerCase s = "delivered" then 7
       else 1) ∧
    createResolveProgress none none = 1 ∧
    createResolveProgress none (some "Shipped") = 6 ∧
    createResolveProgress none (some " shipped ") = 1 ∧
    (buildTimelineFromProgress (createResolveProgress none (some "Shipped"))).map
        (fun step => step.status) =
      [.Completed, .Completed, .Completed, .Completed, .Completed, .InProgress, .Locked] := by
  refine ⟨?_, by decide, by decide, by decide, by decide⟩
  simp [createResolveProgress, resolveInitialProgress]

/-- C8 counterexample: `buildDefaultTimeline` does not clamp out-of-range
indices — at 0-based index 7 (cursor 8) it differs from the clamped index 6,
and at index -1 it differs from the clamped index 0. -/
theorem buildDefaultTimeline_no_clamp_cex :
    ¬ buildDefaultTimeline 7 = buildDefaultTimeline 6 ∧
    ¬ buildDefaultTimeline (-1) = buildDefaultTimeline 0 := by
  constructor <;> decide

/-- C8 (amended): the create path's default-timeline construction does not
clamp the cursor: for every 0-based `currentIndex` above 6 every one of the
7 steps comes out `Completed` (so no step is `In Progress`), and for every
`currentIndex` below 0 every step comes out `Locked` — both different from
the timeline built at the clamped index. -/
theorem buildDefaultTimeline_out_of_range (i : Int) (j : Nat) (hj : j < 7) :
    (6 < i → ∃ s, (buildDefaultTimeline i).get? j = some s ∧ s.status = .Completed ∧
      s.isCompleted = true ∧ s.isInProgress = false ∧ s.isLocked = false) ∧
    (i < 0 → ∃ s, (buildDefaultTimeline i).get? j = some s ∧ s.status = .Locked ∧
      s.isCompleted = false ∧ s.isInProgress = false ∧ s.isLocked = true) := by
  have hjlen : j < defaultTimeline.length := by
    simp only [defaultTimeline, List.length]; omega
  obtain ⟨t, ht⟩ : ∃ t, defaultTimeline.get? j = some t := ⟨_, List.get?_eq_get hjlen⟩
  have hget : (buildDefaultTimeline i).get? j =
      (defaultTimeline.get? j).map (buildStep (i + 1) (0 + (j : Int))) := by
    rw [buildDefaultTimeline, buildTimelineFromProgress, buildTimelineFrom_get?]
  constructor
  · intro hi
    refine ⟨⟨t.id, t.title, t.description, t.estimatedDuration, "", "",
      .Completed, true, false, false⟩, ?_, rfl, rfl, rfl, rfl⟩
    rw [hget, ht, Option.map_some']
    simp only [buildStep]
    rw [if_pos (by omega)]
  · intro hi
    refine ⟨⟨t.id, t.title, t.description, t.estimatedDuration, "", "",
      .Locked, false, false, true⟩, ?_, rfl, rfl, rfl, rfl⟩
    rw [hget, ht, Option.map_some']
    simp only [buildStep]
    rw [if_neg (by omega), if_neg (by omega)]

theorem buildDefaultTimeline_out_of_range_witness :
    (6 < (7 : Int) → ∃ s, (buildDefaultTimeline 7).get? 0 = some s ∧
      s.status = .Completed ∧ s.isCompleted = true ∧ s.isInProgress = false ∧
      s.isLocked = false) ∧
    ((7 : Int) < 0 → ∃ s, (buildDefaultTimeline 7).get? 0 = some s ∧
      s.status = .Locked ∧ s.isCompleted = false ∧ s.isInProgress = false ∧
      s.isLocked = true) :=
  buildDefaultTimeline_out_of_range 7 0 (by decide)

/-- C1: for every order at cursor `k` with `1 ≤ k < 7` (`total` 7) and a
7-step timeline (whose step titles are non-empty, as the schema's `required`
validator guarantees), `advancePhase` yields cursor `k + 1`, turns the step
at index `k - 1` into `Completed` (`isCompleted` true, `isInProgress` false,
finish date stamped), turns the step at index `k` into `In Progress`
(`isInProgress` true, `isLocked` false, start date stamped), sets
`currentPhase` to that step's title, and sets `status` to the
`phaseStatusMap` lookup at `k + 1`. -/
theorem advance_midcursor (o : Order) (k : Nat) (today : String)
    (hlen : o.timeline.length = 7)
    (htot : o.progress.total = 7)
    (hcur : o.progress.current = (k : Int))
    (hk1 : 1 ≤ k) (hk7 : k < 7)
    (htitles : ∀ s ∈ o.timeline, ¬ s.title = "") :
    (Order.advancePhase today o).progress.current = (k : Int) + 1 ∧
    (∃ s, o.timeline.get? (k - 1) = some s ∧
      (Order.advancePhase today o).timeline.get? (k - 1) =
        some { s with status := .Completed, isCompleted := true, isInProgress := false,
                      finishDate := today }) ∧
    (∃ s, o.timeline.get? k = some s ∧
      (Order.advancePhase today o).timeline.get? k =
        some { s with status := .InProgress, isInProgress := true, isLocked := false,
                      startDate := today } ∧
      (Order.advancePhase today o).currentPhase = s.title) ∧
    (Order.advancePhase today o).status = phaseStatusMap ((k : Int) + 1) := by
  have hlt : o.progress.current < o.progress.total := by rw [hcur, htot]; omega
  have hk1lt : k - 1 < o.timeline.length := by omega
  have hklt : k < o.timeline.length := by omega
  obtain ⟨sPrev, hsPrev⟩ : ∃ s, o.timeline.get? (k - 1) = some s :=
    ⟨_, List.get?_eq_get hk1lt⟩
  obtain ⟨sNext, hsNext⟩ : ∃ s, o.timeline.get? k = some s :=
    ⟨_, List.get?_eq_get hklt⟩
  have htN : ¬ sNext.title = "" := htitles sNext (List.get?_mem hsNext)
  simp only [Order.advancePhase, if_pos hlt]
  refine ⟨by simp [hcur], ⟨sPrev, hsPrev, ?_⟩, ⟨sNext, hsNext, ?_, ?_⟩, by simp [hcur]⟩
  · rw [modifyAtInt_get?, if_neg (by rw [hcur]; omega),
      modifyAtInt_get?, if_pos (by rw [hcur]; omega), hsPrev]
    rfl
  · rw [modifyAtInt_get?, if_pos (by rw [hcur]; omega),
      modifyAtInt_get?, if_neg (by rw [hcur]; omega), hsNext]
    rfl
  · rw [show o.progress.current + 1 - 1 = (k : Int) by rw [hcur]; ring]
    rw [getAtInt, if_pos (by omega), Int.toNat_natCast,
      modifyAtInt_get?, if_neg (by rw [hcur]; omega), hsNext]
    simp [htN]

/-- A concrete order at cursor 2 of 7 with the matching default timeline. -/
def midOrder : Order :=
  { status := .Development, currentPhase := "Mold / Product in Development",
    progress := ⟨2, 7⟩, timeline := buildTimelineFromProgress 2 }

theorem advance_midcursor_witness :
    (Order.advancePhase "2/2/2026" midOrder).progress.current = ((2 : Nat) : Int) + 1 ∧
    (∃ s, midOrder.timeline.get? (2 - 1) = some s ∧
      (Order.advancePhase "2/2/2026" midOrder).timeline.get? (2 - 1) =
        some { s with status := .Completed, isCompleted := true, isInProgress := false,
                      finishDate := "2/2/2026" }) ∧
    (∃ s, midOrder.timeline.get? 2 = some s ∧
      (Order.advancePhase "2/2/2026" midOrder).timeline.get? 2 =
        some { s with status := .InProgress, isInProgress := true, isLocked := false,
                      startDate := "2/2/2026" } ∧
      (Order.advancePhase "2/2/2026" midOrder).currentPhase = s.title) ∧
    (Order.advancePhase "2/2/2026" midOrder).status = phaseStatusMap (((2 : Nat) : Int) + 1) :=
  advance_midcursor midOrder 2 "2/2/2026" (by decide) (by decide) (by decide)
    (by decide) (by decide) (by decide)

theorem sweepFrom_all_locked (c : Int) (l : List TimelineStep) :
    ∀ p : Int, c < p → ∀ s ∈ sweepFrom c p l,
      s.status = .Locked ∧ s.isCompleted = false ∧ s.isInProgress = false ∧
      s.isLocked = true := by
  induction l with
  | nil => intro p _ s hs; simp [sweepFrom] at hs
  | cons a rest ih =>
    intro p hp s hs
    rcases List.mem_cons.mp hs with rfl | htail
    · rw [sweepStep, if_neg (by omega), if_neg (by omega)]
      exact ⟨rfl, rfl, rfl, rfl⟩
    · exact ih (p + 1) (by omega) s htail

/-- An order whose supplied timeline carries the title `"Production Phase"`
both at index 0 and at its template position 4 (creation stores a supplied
timeline as-is, so such an order is constructible). -/
def dupTitleOrder : Order :=
  { status := .Development, currentPhase := "Production Phase",
    progress := ⟨1, 7⟩,
    timeline := (buildTimelineFromProgress 1).map
      (fun s => if s.id = 1 then { s with title := "Production Phase" } else s) }

/-- C5 counterexample: `dupTitleOrder` has `"Production Phase"` at template
position 5 (index 4), yet the set-phase operation with that target and no
explicit progress sets the cursor to 1 — `findIndex` matches the earlier
duplicate at index 0 — not to 5 as the claim asserts. -/
theorem setPhase_duplicate_title_cex :
    (dupTitleOrder.timeline.get? 4).map (fun s => s.title) = some "Production Phase" ∧
    ∃ o', updateOrderPhase "Production Phase" none dupTitleOrder = .ok o' ∧
      o'.progress.current = 1 ∧ ¬ o'.progress.current = 5 :=
  ⟨by decide, ⟨_, rfl, by decide, by decide⟩⟩

/-- C5 (amended): for every order with a 7-step timeline whose step at
template position 5 (index 4) is titled `"Production Phase"` and no earlier
step bears that title, the set-phase operation with target
`"Production Phase"` and no explicit progress sets `progress.current` to 5,
sets `currentPhase` to `"Production Phase"`, re-sweeps the timeline
(indices below 4 `Completed`, index 4 `In Progress`, indices above 4
`Locked`) and sets `status` to `Production`, regardless of the order's
prior cursor. -/
theorem setPhase_production (o : Order)
    (hlen : o.timeline.length = 7)
    (h4 : (o.timeline.get? 4).map (fun s => s.title) = some "Production Phase")
    (hprior : ∀ j < 4, ¬ (o.timeline.get? j).map (fun s => s.title) =
      some "Production Phase") :
    ∃ o', updateOrderPhase "Production Phase" none o = .ok o' ∧
      o'.progress.current = 5 ∧
      o'.currentPhase = "Production Phase" ∧
      o'.status = .Production ∧
      o'.timeline.length = 7 ∧
      (∀ j : Nat, j < 4 → ∃ s, o'.timeline.get? j = some s ∧ s.status = .Completed ∧
        s.isCompleted = true ∧ s.isInProgress = false ∧ s.isLocked = false) ∧
      (∃ s, o'.timeline.get? 4 = some s ∧ s.status = .InProgress ∧
        s.isCompleted = false ∧ s.isInProgress = true ∧ s.isLocked = false) ∧
      (∀ j : Nat, 4 < j → j < 7 → ∃ s, o'.timeline.get? j = some s ∧
        s.status = .Locked ∧ s.isCompleted = false ∧ s.isInProgress = false ∧
        s.isLocked = true) := by
  obtain ⟨s4, hs4, hs4t⟩ : ∃ s, o.timeline.get? 4 = some s ∧ s.title = "Production Phase" := by
    cases hg : o.timeline.get? 4 with
    | none => rw [hg] at h4; simp at h4
    | some s => rw [hg] at h4; simp at h4; exact ⟨s, rfl, h4⟩
  have hfind : findIndexFrom (fun item => decide (item.title = "Production Phase")) 0
      o.timeline = some 4 := by
    have := findIndexFrom_eq_of (fun item => decide (item.title = "Production Phase"))
      o.timeline 4 0
      (fun j hj s hs => by
        have h := hprior j hj
        rw [hs] at h
        simp only [Option.map_some'] at h
        simp only [decide_eq_false_iff_not]
        exact fun ht => h (by rw [ht]))
      ⟨s4, hs4, by simp [hs4t]⟩
    simpa using this
  simp only [updateOrderPhase, hfind]
  have hcur : ((4 : Nat) : Int) + 1 = 5 := by norm_num
  refine ⟨_, rfl, by norm_num, rfl, by rw [hcur]; rfl,
    by rw [sweepFrom_length, hlen], ?_, ?_, ?_⟩
  · intro j hj
    obtain ⟨s, hs⟩ : ∃ s, o.timeline.get? j = some s :=
      ⟨_, List.get?_eq_get (by omega)⟩
    refine ⟨sweepStep (((4 : Nat) : Int) + 1 - 1) (0 + j) s, ?_, ?_⟩
    · rw [sweepFrom_get?, hs, Option.map_some']
    · rw [sweepStep, if_pos (by push_cast; omega)]
      exact ⟨rfl, rfl, rfl, rfl⟩
  · refine ⟨sweepStep (((4 : Nat) : Int) + 1 - 1) (0 + ((4 : Nat) : Int)) s4, ?_, ?_⟩
    · rw [sweepFrom_get?, hs4, Option.map_some']
    · rw [sweepStep]
      norm_num
  · intro j hj4 hj7
    obtain ⟨s, hs⟩ : ∃ s, o.timeline.get? j = some s :=
      ⟨_, List.get?_eq_get (by omega)⟩
    refine ⟨sweepStep (((4 : Nat) : Int) + 1 - 1) (0 + j) s, ?_, ?_⟩
    · rw [sweepFrom_get?, hs, Option.map_some']
    · rw [sweepStep, if_neg (by push_cast; omega), if_neg (by push_cast; omega)]
      exact ⟨rfl, rfl, rfl, rfl⟩

/-- A concrete order with the standard template timeline at cursor 2. -/
def productionReadyOrder : Order :=
  { status := .Development, currentPhase := "Mold / Product in Development",
    progress := ⟨2, 7⟩, timeline := buildTimelineFromProgress 2 }

theorem setPhase_production_witness :
    ∃ o', updateOrderPhase "Production Phase" none productionReadyOrder = .ok o' ∧
      o'.progress.current = 5 ∧
      o'.currentPhase = "Production Phase" ∧
      o'.status = .Production ∧
      o'.timeline.length = 7 ∧
      (∀ j : Nat, j < 4 → ∃ s, o'.timeline.get? j = some s ∧ s.status = .Completed ∧
        s.isCompleted = true ∧ s.isInProgress = false ∧ s.isLocked = false) ∧
      (∃ s, o'.timeline.get? 4 = some s ∧ s.status = .InProgress ∧
        s.isCompleted = false ∧ s.isInProgress = true ∧ s.isLocked = false) ∧
      (∀ j : Nat, 4 < j → j < 7 → ∃ s, o'.timeline.get? j = some s ∧
        s.status = .Locked ∧ s.isCompleted = false ∧ s.isInProgress = false ∧
        s.isLocked = true) :=
  setPhase_production productionReadyOrder (by decide) (by decide)
    (by decide)

/-- C10: for every order with a 7-step timeline (`total` 7) containing the
target phase title, the set-phase operation with an explicit progress of 0
succeeds, sets `progress.current` to 0, leaves every one of the 7 timeline
steps `Locked` (none `Completed`, none `In Progress`), and still sets
`currentPhase` to the target title — so no step is `In Progress` after this
public operation and `currentPhase` does not name any active step. -/
theorem setPhase_zero_progress_all_locked (o : Order) (phase : String)
    (hlen : o.timeline.length = 7) (htot : o.progress.total = 7)
    (hmem : ∃ s ∈ o.timeline, s.title = phase) :
    ∃ o', updateOrderPhase phase (some 0) o = .ok o' ∧
      o'.progress.current = 0 ∧
      o'.currentPhase = phase ∧
      o'.timeline.length = 7 ∧
      ∀ s ∈ o'.timeline, s.status = .Locked ∧ s.isCompleted = false ∧
        s.isInProgress = false ∧ s.isLocked = true := by
  obtain ⟨i, hfind⟩ : ∃ i, findIndexFrom (fun item => decide (item.title = phase)) 0
      o.timeline = some i := by
    obtain ⟨s, hsmem, hst⟩ := hmem
    exact findIndexFrom_some_of_exists _ o.timeline 0 ⟨s, hsmem, by simp [hst]⟩
  simp only [updateOrderPhase, hfind]
  have hzero : min (max (0 : Int) 0) o.progress.total = 0 := by rw [htot]; norm_num
  refine ⟨_, rfl, by simpa using hzero, rfl, by rw [sweepFrom_length, hlen], ?_⟩
  intro s hs
  rw [hzero] at hs
  exact sweepFrom_all_locked (0 - 1) o.timeline 0 (by omega) s hs

theorem setPhase_zero_progress_all_locked_witness :
    ∃ o', updateOrderPhase "Production Phase" (some 0) productionReadyOrder = .ok o' ∧
      o'.progress.current = 0 ∧
      o'.currentPhase = "Production Phase" ∧
      o'.timeline.length = 7 ∧
      ∀ s ∈ o'.timeline, s.status = .Locked ∧ s.isCompleted = false ∧
        s.isInProgress = false ∧ s.isLocked = true :=
  setPhase_zero_progress_all_locked productionReadyOrder "Production Phase"
    (by decide) (by decide) (by decide)

theorem enforceFrom_countP (f : TimelineStep → Bool) (g : InputStep → Bool)
    (hnorm : ∀ i s, f (normalizeStep i s) = g s)
    (henf : ∀ t p, f (enforceStep t (some p)) = f p)
    (hlock : ∀ t, f (enforceStep t none) = false)
    (input : List InputStep) :
    ∀ (tpls : List TemplateStep) (idx : Nat),
      (enforceFrom (normalizeFrom 0 input) idx tpls).countP f =
        ((input.drop idx).take tpls.length).countP g := by
  intro tpls
  induction tpls with
  | nil => intro idx; simp [enforceFrom]
  | cons t rest ih =>
    intro idx
    simp only [enforceFrom, List.countP_cons, List.length_cons]
    rw [ih (idx + 1)]
    have hn : (normalizeFrom 0 input).get? idx = (input.get? idx).map (normalizeStep idx) := by
      have := normalizeFrom_get? 0 input idx
      simpa using this
    cases hg : input.get? idx with
    | none =>
      have hlen : input.length ≤ idx := List.get?_eq_none.mp hg
      rw [hn, hg]
      simp only [Option.map_none', hlock]
      rw [List.drop_eq_nil_of_le hlen, List.drop_eq_nil_of_le (show input.length ≤ idx + 1 by omega)]
      simp
    | some x =>
      have hlt : idx < input.length := by
        by_contra hc
        rw [List.get?_eq_none.mpr (by omega)] at hg
        exact Option.noConfusion hg
      rw [hn, hg]
      simp only [Option.map_some', henf, hnorm]
      have hx : input.get ⟨idx, hlt⟩ = x := by
        have hgg := List.get?_eq_get hlt
        rw [hgg] at hg
        exact Option.some_inj.mp hg
      rw [List.drop_eq_get_cons hlt, hx, List.take_succ_cons, List.countP_cons]

theorem enforced_countP_eq (f : TimelineStep → Bool) (g : InputStep → Bool)
    (hnorm : ∀ i s, f (normalizeStep i s) = g s)
    (henf : ∀ t p, f (enforceStep t (some p)) = f p)
    (hlock : ∀ t, f (enforceStep t none) = false)
    (input : List InputStep) :
    (enforcedTimeline input).countP f = (input.take 7).countP g := by
  have h := enforceFrom_countP f g hnorm henf hlock input defaultTimeline 0
  rw [List.drop_zero] at h
  exact h

/-- The C4 scenario payload: steps 1–3 with `isCompleted = true`, step 4
with `isInProgress = true`, steps 5–7 omitted. -/
def scenarioInput : List InputStep :=
  [ { isCompleted := true }, { isCompleted := true }, { isCompleted := true },
    { isInProgress := true } ]

/-- C4: for every update payload containing a timeline, the recomputed
cursor equals the count of `isCompleted` steps (of the first 7 supplied
entries — the enforced 7-step timeline carries exactly the payload's flags)
plus 1 when any step is `isInProgress`, clamped to `[1, 7]`, with `total`
set to 7; in particular the scenario payload (steps 1–3 completed, step 4
in progress, steps 5–7 omitted) yields cursor 4 of 7, and with no explicit
status the percentage policy (`≥100 Delivered, ≥85 Shipped, ≥70 Production,
≥30 In Progress, else Development`) derives `In Progress`. -/
theorem update_progress_recompute :
    (∀ (input : List InputStep) (st : Option OrderStatus),
      (updateTimelinePath input st).current =
        min (max (((input.take 7).countP (fun s => s.isCompleted) : Int) +
          (if 0 < (input.take 7).countP (fun s => s.isInProgress) then 1 else 0)) 1) 7 ∧
      (updateTimelinePath input st).total = 7) ∧
    (updateTimelinePath scenarioInput none).current = 4 ∧
    (updateTimelinePath scenarioInput none).total = 7 ∧
    (updateTimelinePath scenarioInput none).status = .InProgress := by
  refine ⟨?_, by decide, by decide, ?_⟩
  · intro input st
    have hc : (enforcedTimeline input).countP (fun s => s.isCompleted) =
        (input.take 7).countP (fun s => s.isCompleted) :=
      enforced_countP_eq (fun s => s.isCompleted) (fun s => s.isCompleted)
        (fun i s => rfl) (fun t p => rfl) (fun t => rfl) input
    have hp : (enforcedTimeline input).countP (fun s => s.isInProgress) =
        (input.take 7).countP (fun s => s.isInProgress) :=
      enforced_countP_eq (fun s => s.isInProgress) (fun s => s.isInProgress)
        (fun i s => rfl) (fun t p => rfl) (fun t => rfl) input
    constructor
    · simp only [updateTimelinePath]
      rw [← List.countP_eq_length_filter, ← List.countP_eq_length_filter, hc, hp]
    · rfl
  · show statusFromPercentage 4 7 = .InProgress
    norm_num [statusFromPercentage]

/-- C7: for every caller-supplied timeline with fewer than 7 entries, the
update path's normalization forces every step at an index at or beyond the
supplied length (up to index 6) to `Locked` — status `Locked`,
`isCompleted`/`isInProgress` false, `isLocked` true, empty dates — with the
template's title, description and estimated duration. -/
theorem update_missing_steps_locked (input : List InputStep) (i : Nat)
    (hL : input.length < 7) (h1 : input.length ≤ i) (h2 : i ≤ 6) :
    ∃ t, defaultTimeline.get? i = some t ∧
      (enforcedTimeline input).get? i =
        some ⟨t.id, t.title, t.description, t.estimatedDuration, "", "",
              .Locked, false, false, true⟩ := by
  obtain ⟨t, ht⟩ : ∃ t, defaultTimeline.get? i = some t :=
    ⟨_, List.get?_eq_get (show i < defaultTimeline.length by
      simp only [defaultTimeline, List.length]; omega)⟩
  refine ⟨t, ht, ?_⟩
  rw [enforcedTimeline, enforceFrom_get?, ht, Option.map_some']
  have hnone : (normalizeFrom 0 input).get? (0 + i) = none := by
    rw [List.get?_eq_none, normalizeFrom_length]
    omega
  rw [hnone]
  rfl

theorem update_missing_steps_locked_witness :
    ∃ t, defaultTimeline.get? 3 = some t ∧
      (enforcedTimeline [({} : InputStep)]).get? 3 =
        some ⟨t.id, t.title, t.description, t.estimatedDuration, "", "",
              .Locked, false, false, true⟩ :=
  update_missing_steps_locked [({} : InputStep)] 3 (by decide) (by decide) (by decide)

/-- C9 counterexample: a caller-supplied step carrying the non-empty custom
title `"X"` survives normalization, so the 7 titles do not match the
canonical template titles. -/
theorem update_titles_custom_cex :
    ¬ (enforcedTimeline [{ title := "X" }]).map (fun s => s.title) =
      ["Offer Accepted", "Mold / Product in Development", "Sample Sent to Client",
       "Sample Approved", "Production Phase", "Transport Phase",
       "Delivered to Final Location"] ∧
    (enforcedTimeline [{ title := "X" }]).map (fun s => s.title) =
      ["X", "Mold / Product in Development", "Sample Sent to Client",
       "Sample Approved", "Production Phase", "Transport Phase",
       "Delivered to Final Location"] := by
  constructor <;> decide

theorem enforced_title_of_empty (input : List InputStep)
    (h : ∀ s ∈ input, s.title = "") (i : Nat) :
    ((enforcedTimeline input).get? i).map (fun s => s.title) =
      (defaultTimeline.get? i).map (fun t => t.title) := by
  rw [enforcedTimeline, enforceFrom_get?]
  cases ht : defaultTimeline.get? i with
  | none => rfl
  | some t =>
    simp only [Option.map_some']
    have hn : (normalizeFrom 0 input).get? (0 + i) = (input.get? i).map (normalizeStep i) := by
      have := normalizeFrom_get? 0 input i
      simpa using this
    rw [hn]
    cases hg : input.get? i with
    | none => rfl
    | some x =>
      have hx : x.title = "" := h x (List.get?_mem hg)
      simp only [Option.map_some', enforceStep, normalizeStep, hx, ht]
      simp

/-- C9 (amended): for every caller-supplied partial timeline whose entries
carry no (non-empty) custom title, the 7 titles produced by the update
path's normalization are exactly the canonical template titles, regardless
of the payload's length or other field values. -/
theorem update_titles_template (input : List InputStep)
    (h : ∀ s ∈ input, s.title = "") :
    (enforcedTimeline input).map (fun s => s.title) =
      ["Offer Accepted", "Mold / Product in Development", "Sample Sent to Client",
       "Sample Approved", "Production Phase", "Transport Phase",
       "Delivered to Final Location"] := by
  have hmap : (["Offer Accepted", "Mold / Product in Development",
      "Sample Sent to Client", "Sample Approved", "Production Phase",
      "Transport Phase", "Delivered to Final Location"] : List String) =
      defaultTimeline.map (fun t => t.title) := by decide
  rw [hmap]
  apply List.ext_get?
  intro n
  rw [List.get?_map, List.get?_map, enforced_title_of_empty input h n]

theorem update_titles_template_witness :
    (enforcedTimeline [({ isCompleted := true } : InputStep)]).map (fun s => s.title) =
      ["Offer Accepted", "Mold / Product in Development", "Sample Sent to Client",
       "Sample Approved", "Production Phase", "Transport Phase",
       "Delivered to Final Location"] :=
  update_titles_template [({ isCompleted := true } : InputStep)] (by decide)

end Sourc
